import Mathlib

/-!
Shallow embedding of the unicorns-pitchbook-dashboard data pipeline
(src/main.py) in Lean 4.

The program reads a CSV of startup records, filters rows to a fixed list of
European countries, renames "United Kingdom" to "UK", keeps only rows with
status "Active" or "Exited", normalizes the currency-text columns
`raised_usd` / `valuation_usd` into numbers (billions of USD), extracts a
four-digit year from `unicorn_month`, and serves filtered views and bar
charts of the result.

Modelling conventions:
- A dataframe is a `List` of row structures; polars `filter` is `List.filter`,
  `with_columns` of a per-row expression is a map over the rows.
- polars `str.replace(pat, rep)` replaces the first occurrence of the pattern;
  all patterns used by the program ("N/A", "\$", "M", "B", "United Kingdom")
  are literal strings, so it is embedded as a first-occurrence literal
  replacement on the character list.
- `.cast(pl.Float64)` is strict in polars: an unparseable string raises and
  aborts the whole computation.  A column cast is therefore embedded as a
  monadic map into `Option`: `none` models the aborting `ComputeError`.
  Real numbers are modelled exactly as rationals `ℚ`.
- `str.extract(r"(\d{4})")` returns the leftmost run of four consecutive
  digits, or null.  The subsequent `.cast(pl.Int32)` cannot overflow (the
  value is at most 9999) and maps null to null, so the embedded result is
  `Option Int`.
-/

set_option maxRecDepth 4000

/-- Value of a list of decimal digit characters, most significant first. -/
def digitsVal (ds : List Char) : Nat :=
  ds.foldl (fun a c => a * 10 + (c.toNat - 48)) 0

/-- Does `pat` occur as a contiguous sublist of `l`? -/
def strOccurs (pat : List Char) : List Char → Bool
  | [] => pat.isEmpty
  | c :: cs => pat.isPrefixOf (c :: cs) || strOccurs pat cs

/-- Replace the first occurrence of `pat` by `rep` in `l` (no occurrence:
return `l` unchanged).  Embeds polars `str.replace` for literal patterns. -/
def replaceFirstL (pat rep : List Char) : List Char → List Char
  | [] => []
  | c :: cs =>
      if pat.isPrefixOf (c :: cs) then rep ++ (c :: cs).drop pat.length
      else c :: replaceFirstL pat rep cs

/-- String version of `replaceFirstL`. -/
def strReplaceFirst (pat rep s : String) : String :=
  ⟨replaceFirstL pat.data rep.data s.data⟩

/-- Parse an optional exponent suffix: empty means exponent 0, otherwise
`e`/`E` followed by an optional sign and a nonempty digit run consuming the
whole rest.  Part of the float grammar used by the strict `Float64` cast. -/
def parseExpPart (cs : List Char) : Option Int :=
  match cs with
  | [] => some 0
  | 'e' :: rest => parseSigned rest
  | 'E' :: rest => parseSigned rest
  | _ => none
where
  parseSigned : List Char → Option Int
    | '-' :: ds => if !ds.isEmpty && ds.all Char.isDigit then some (-(digitsVal ds : Int)) else none
    | '+' :: ds => if !ds.isEmpty && ds.all Char.isDigit then some ((digitsVal ds : Int)) else none
    | ds => if !ds.isEmpty && ds.all Char.isDigit then some ((digitsVal ds : Int)) else none

/-- The rational `10 ^ e` for an integer exponent `e`, written with natural
powers so it evaluates by kernel reduction. -/
def pow10 (e : Int) : ℚ :=
  ((10 ^ e.toNat : Nat) : ℚ) / ((10 ^ (-e).toNat : Nat) : ℚ)

/-- Parse an unsigned decimal number `digits [. digits] [exp]` (at least one
digit before or after the dot) as an exact rational. -/
def parseUnsigned (cs : List Char) : Option ℚ :=
  let ip := cs.takeWhile Char.isDigit
  let r1 := cs.dropWhile Char.isDigit
  match r1 with
  | '.' :: r2 =>
      let fp := r2.takeWhile Char.isDigit
      let r3 := r2.dropWhile Char.isDigit
      if ip.isEmpty && fp.isEmpty then none
      else (parseExpPart r3).map (fun e =>
        ((digitsVal ip : ℚ) + (digitsVal fp : ℚ) / ((10 ^ fp.length : Nat) : ℚ)) * pow10 e)
  | _ =>
      if ip.isEmpty then none
      else (parseExpPart r1).map (fun e => (digitsVal ip : ℚ) * pow10 e)

/-- Parse a decimal number with optional leading sign, exactly, as a rational.
Embeds the numeric part of polars strict string-to-Float64 cast. -/
def parseNum : List Char → Option ℚ
  | '-' :: t => (parseUnsigned t).map (fun v => -v)
  | '+' :: t => parseUnsigned t
  | cs => parseUnsigned cs

/-- Are the first four characters of `cs` four decimal digits? -/
def fourDigitsHere (cs : List Char) : Bool :=
  decide ((cs.take 4).length = 4) && (cs.take 4).all Char.isDigit

/-- Leftmost match of the regex `(\d{4})`: scan left to right and return the
value of the first four consecutive digits found, if any. -/
def extract4 : List Char → Option Nat
  | [] => none
  | c :: cs =>
      if fourDigitsHere (c :: cs) then some (digitsVal ((c :: cs).take 4))
      else extract4 cs

/-- `str.extract(r"(\d{4})").cast(pl.Int32)` of main.py lines 89-94: the
leftmost run of four digits as an integer, null when there is none.  The cast
cannot overflow an Int32 since the value is at most 9999. -/
def extractYear (s : String) : Option Int :=
  (extract4 s.data).map (fun n => (n : Int))

/-- The 27-entry European country allow-list of main.py lines 24-53. -/
def european_countries : List String :=
  ["Austria", "Belgium", "Bulgaria", "Croatia", "Cyprus", "Czech Republic",
   "Denmark", "Estonia", "Finland", "France", "Germany", "Greece", "Hungary",
   "Ireland", "Italy", "Latvia", "Lithuania", "Luxembourg", "Malta",
   "Netherlands", "Poland", "Portugal", "Romania", "Slovakia", "Slovenia",
   "Spain", "Sweden", "United Kingdom"]

/-- One row of the source CSV (the columns main.py uses). -/
structure Row where
  company : String
  country : String
  vertical : String
  status : String
  raised_usd : String
  valuation_usd : String
  unicorn_month : String
deriving DecidableEq, Repr

/-- One row of the prepared dataframe: currency columns are numeric
(billions of USD) and the derived `unicorn_year` column is present. -/
structure PRow where
  company : String
  country : String
  vertical : String
  status : String
  raised_usd : ℚ
  valuation_usd : ℚ
  unicorn_month : String
  unicorn_year : Option Int
deriving DecidableEq, Repr

/-- The currency rewrite chain of main.py lines 66-72: replace the first
"N/A" with "0", strip the first "$", replace the first "M" with "e6" and
the first "B" with "e9". -/
def rewriteCurrency (s : String) : String :=
  strReplaceFirst "B" "e9"
    (strReplaceFirst "M" "e6"
      (strReplaceFirst "$" ""
        (strReplaceFirst "N/A" "0" s)))

/-- Full currency normalization of main.py lines 66-75: rewrite the text,
cast to Float64 (strict: failure aborts), multiply by 1/1e9 so the stored
unit is billions of dollars. -/
def normCurrency (s : String) : Option ℚ :=
  (parseNum (rewriteCurrency s).data).map (fun v => v * (1 / 1000000000))

/-- main.py line 59: replace the first regex match of "United Kingdom" by
"UK" in the country column. -/
def renameUK (r : Row) : Row :=
  { r with country := strReplaceFirst "United Kingdom" "UK" r.country }

/-- The three `with_columns` of main.py lines 66-94 acting on one row: both
currency columns must cast successfully (strict cast), and the year column is
derived (its cast never fails).  Failure of either cast aborts the whole
dataframe computation, which `optionMapM` below propagates. -/
def transformRow (r : Row) : Option PRow :=
  match normCurrency r.raised_usd, normCurrency r.valuation_usd with
  | some rv, some vv =>
      some { company := r.company, country := r.country, vertical := r.vertical,
             status := r.status, raised_usd := rv, valuation_usd := vv,
             unicorn_month := r.unicorn_month,
             unicorn_year := extractYear r.unicorn_month }
  | _, _ => none

/-- Map a fallible per-row function over the rows; any failure aborts the
whole result (the polars strict-cast semantics for a column expression). -/
def optionMapM (f : α → Option β) : List α → Option (List β)
  | [] => some []
  | a :: l =>
      match f a, optionMapM f l with
      | some b, some bs => some (b :: bs)
      | _, _ => none

/-- `prepare_dataset` of main.py lines 19-95 (after `read_csv`): filter to
European countries, rename United Kingdom to UK, keep Active/Exited rows,
normalize the two currency columns, derive `unicorn_year`.  Returns `none`
when a strict cast fails (the polars `ComputeError` aborting the load). -/
def prepare_dataset (rows : List Row) : Option (List PRow) :=
  let f1 := rows.filter (fun r => european_countries.contains r.country)
  let f2 := f1.map renameUK
  let f3 := f2.filter (fun r => ["Active", "Exited"].contains r.status)
  optionMapM transformRow f3

/-- The filter block of main.py lines 192-202: country sentinel "All",
industry sentinel "All", then the inclusive year-range test.  A null
`unicorn_year` never satisfies the comparison (polars null semantics), so
such rows are dropped by the year filter. -/
def applyFilters (df : List PRow) (location industry : String) (lo hi : Int) :
    List PRow :=
  let f1 := if location == "All" then df
            else df.filter (fun r => r.country == location)
  let f2 := if industry != "All" then f1.filter (fun r => r.vertical == industry)
            else f1
  f2.filter (fun r =>
    match r.unicorn_year with
    | some y => decide (lo ≤ y) && decide (y ≤ hi)
    | none => false)

/-- Minimum of a list of integers, `none` when empty. -/
def listMin : List Int → Option Int
  | [] => none
  | y :: l => match listMin l with
              | none => some y
              | some m => some (min y m)

/-- Maximum of a list of integers, `none` when empty. -/
def listMax : List Int → Option Int
  | [] => none
  | y :: l => match listMax l with
              | none => some y
              | some m => some (max y m)

/-- `df["unicorn_year"].min()` of main.py line 185: nulls are ignored. -/
def tableMinYear (df : List PRow) : Option Int :=
  listMin (df.filterMap (fun r => r.unicorn_year))

/-- `df["unicorn_year"].max()` of main.py line 186: nulls are ignored. -/
def tableMaxYear (df : List PRow) : Option Int :=
  listMax (df.filterMap (fun r => r.unicorn_year))

/-- The declarative content of the Altair chart built by `bar_chart` in
main.py lines 98-131: grouping dimension (the y encoding), measure column
(the x encoding), aggregation for the bar length, the field the y axis is
sorted by with its direction, title, and axis-label visibility. -/
structure ChartSpec where
  groupBy : String
  measure : String
  aggFunc : String
  sortOp : String
  sortOrder : String
  title : String
  showLabels : Bool
deriving DecidableEq, Repr

/-- `bar_chart` of main.py lines 98-131.  The y-axis sort is
`alt.EncodingSortField(op="count", order="descending")` (line 112): the sort
op is the literal "count" independently of `func`, while the bar length is
`func(x)` (line 121). -/
def bar_chart (y x func title : String) (is_y_label : Bool) : ChartSpec :=
  { groupBy := y, measure := x, aggFunc := func,
    sortOp := "count", sortOrder := "descending",
    title := title, showLabels := is_y_label }

/-- Read a string-valued column of the prepared table by name (the columns
`bar_chart` is invoked with as grouping or count dimensions). -/
def colStr (name : String) (r : PRow) : String :=
  if name == "country" then r.country
  else if name == "vertical" then r.vertical
  else if name == "company" then r.company
  else if name == "status" then r.status
  else r.unicorn_month

/-- Read a numeric column of the prepared table by name. -/
def colNum (name : String) (r : PRow) : ℚ :=
  if name == "raised_usd" then r.raised_usd
  else if name == "valuation_usd" then r.valuation_usd
  else 0

/-- The distinct values of a column in first-seen order (the category domain
a chart renderer derives from the data). -/
def distinctFirstSeen (l : List String) : List String :=
  l.foldl (fun acc a => if acc.contains a then acc else acc ++ [a]) []

/-- Aggregate a measure over the rows of one group: `count` is the row
count (ignores the measure), `sum` the arithmetic sum of the measure. -/
def aggValue (func measure groupBy g : String) (t : List PRow) : ℚ :=
  let grp := t.filter (fun r => colStr groupBy r == g)
  if func == "count" then (grp.length : ℚ)
  else ((grp.map (colNum measure)).sum)

/-- The order in which a chart spec presents its groups: the distinct values
of the grouping column, stably sorted by the spec's sort field aggregate in
descending order (a stable sort preserves first-seen order among ties). -/
def chartGroupOrder (spec : ChartSpec) (t : List PRow) : List String :=
  let gs := distinctFirstSeen (t.map (colStr spec.groupBy))
  gs.insertionSort (fun a b =>
    aggValue spec.sortOp spec.measure spec.groupBy b t ≤
      aggValue spec.sortOp spec.measure spec.groupBy a t)

/-!  Concrete rows and tables used to evaluate the pipeline on closed inputs. -/

/-- A row whose `raised_usd` text matches no normalization rule. -/
def malformedRow : Row :=
  { company := "Acme", country := "France", vertical := "Fintech",
    status := "Active", raised_usd := "abc", valuation_usd := "N/A",
    unicorn_month := "March 2015" }

/-- First France row of the worked example: raised "$500M". -/
def franceRow1 : Row :=
  { company := "Alpha", country := "France", vertical := "Fintech",
    status := "Active", raised_usd := "$500M", valuation_usd := "N/A",
    unicorn_month := "Unknown" }

/-- Second France row of the worked example: raised "$1.5B". -/
def franceRow2 : Row :=
  { company := "Beta", country := "France", vertical := "Fintech",
    status := "Active", raised_usd := "$1.5B", valuation_usd := "N/A",
    unicorn_month := "Unknown" }

/-- A United Kingdom source row that passes the status filter. -/
def ukRow : Row :=
  { company := "Revolut", country := "United Kingdom", vertical := "Fintech",
    status := "Active", raised_usd := "N/A", valuation_usd := "N/A",
    unicorn_month := "March 2015" }

/-- The prepared form of `ukRow`. -/
def ukPrepared : PRow :=
  { company := "Revolut", country := "UK", vertical := "Fintech",
    status := "Active", raised_usd := 0, valuation_usd := 0,
    unicorn_month := "March 2015", unicorn_year := some 2015 }

/-- A United Kingdom source row (rename-claim copy). -/
def ukRow9 : Row :=
  { company := "Monzo", country := "United Kingdom", vertical := "Fintech",
    status := "Exited", raised_usd := "N/A", valuation_usd := "N/A",
    unicorn_month := "June 2018" }

/-- The prepared form of `ukRow9`. -/
def ukPrepared9 : PRow :=
  { company := "Monzo", country := "UK", vertical := "Fintech",
    status := "Exited", raised_usd := 0, valuation_usd := 0,
    unicorn_month := "June 2018", unicorn_year := some 2018 }

/-- A row with a negative raised amount text. -/
def negRow : Row :=
  { company := "NegCo", country := "France", vertical := "Fintech",
    status := "Active", raised_usd := "-5M", valuation_usd := "N/A",
    unicorn_month := "Unknown" }

/-- The prepared form of `negRow`: its raised amount is negative. -/
def negPrepared : PRow :=
  { company := "NegCo", country := "France", vertical := "Fintech",
    status := "Active", raised_usd := -(1/200), valuation_usd := 0,
    unicorn_month := "Unknown", unicorn_year := none }

/-- An all-clean source row used to instantiate universally quantified
theorems. -/
def cleanRow : Row :=
  { company := "CleanCo", country := "France", vertical := "Fintech",
    status := "Active", raised_usd := "N/A", valuation_usd := "N/A",
    unicorn_month := "May 2020" }

/-- The prepared form of `cleanRow`. -/
def cleanPrepared : PRow :=
  { company := "CleanCo", country := "France", vertical := "Fintech",
    status := "Active", raised_usd := 0, valuation_usd := 0,
    unicorn_month := "May 2020", unicorn_year := some 2020 }

/-- A prepared row carrying a year. -/
def yearRow : PRow :=
  { company := "Y", country := "France", vertical := "Fintech",
    status := "Active", raised_usd := 0, valuation_usd := 0,
    unicorn_month := "March 2015", unicorn_year := some 2015 }

/-- A prepared row with a null year. -/
def noYearRow : PRow :=
  { company := "N", country := "Spain", vertical := "Fintech",
    status := "Active", raised_usd := 0, valuation_usd := 0,
    unicorn_month := "Unknown", unicorn_year := none }

/-- Build a prepared row with a given country and valuation. -/
def mkP (c : String) (v : ℚ) : PRow :=
  { company := "x", country := c, vertical := "t", status := "Active",
    raised_usd := 0, valuation_usd := v, unicorn_month := "u",
    unicorn_year := none }

/-- Counts A: 3, B: 5, C: 5, with B first seen before C. -/
def tTie : List PRow :=
  [mkP "A" 0, mkP "B" 0, mkP "C" 0, mkP "A" 0, mkP "B" 0, mkP "C" 0,
   mkP "A" 0, mkP "B" 0, mkP "C" 0, mkP "B" 0, mkP "C" 0, mkP "B" 0,
   mkP "C" 0]

/-- Group A: one row of valuation 10; group B: two rows of valuation 1. -/
def tSum : List PRow := [mkP "A" 10, mkP "B" 1, mkP "B" 1]

/-- The key of untouched source columns, for tracking row order. -/
def srcKey (r : Row) : String × String × String :=
  (r.company, r.vertical, r.unicorn_month)

/-- The key of untouched prepared columns, for tracking row order. -/
def outKey (p : PRow) : String × String × String :=
  (p.company, p.vertical, p.unicorn_month)

/-!  Helper lemmas about the embedded operations. -/

theorem replaceFirstL_of_not_occurs (pat rep : List Char) :
    ∀ l : List Char, strOccurs pat l = false → replaceFirstL pat rep l = l
  | [], _ => rfl
  | c :: cs, h => by
      have h2 : pat.isPrefixOf (c :: cs) = false ∧ strOccurs pat cs = false := by
        simpa [strOccurs] using h
      simp [replaceFirstL, h2.1, replaceFirstL_of_not_occurs pat rep cs h2.2]

theorem mem_replaceFirstL (pat rep : List Char) :
    ∀ l : List Char, ∀ c ∈ replaceFirstL pat rep l, c ∈ l ∨ c ∈ rep
  | [], c, h => by simp [replaceFirstL] at h
  | a :: l, c, h => by
      by_cases hp : pat.isPrefixOf (a :: l)
      · simp only [replaceFirstL, if_pos hp, List.mem_append] at h
        rcases h with h | h
        · exact Or.inr h
        · exact Or.inl (List.mem_of_mem_drop h)
      · simp only [replaceFirstL, if_neg hp, List.mem_cons] at h
        rcases h with h | h
        · exact Or.inl (h ▸ List.mem_cons_self a l)
        · rcases mem_replaceFirstL pat rep l c h with h | h
          · exact Or.inl (List.mem_cons_of_mem a h)
          · exact Or.inr h

theorem pow10_nonneg (e : Int) : 0 ≤ pow10 e :=
  div_nonneg (Nat.cast_nonneg _) (Nat.cast_nonneg _)

theorem parseUnsigned_nonneg (cs : List Char) (v : ℚ)
    (h : parseUnsigned cs = some v) : 0 ≤ v := by
  unfold parseUnsigned at h
  dsimp only at h
  split at h
  · split at h
    · exact absurd h (by simp)
    · rcases Option.map_eq_some'.mp h with ⟨e, _, he⟩
      subst he
      exact mul_nonneg
        (add_nonneg (Nat.cast_nonneg _)
          (div_nonneg (Nat.cast_nonneg _) (Nat.cast_nonneg _)))
        (pow10_nonneg e)
  · split at h
    · exact absurd h (by simp)
    · rcases Option.map_eq_some'.mp h with ⟨e, _, he⟩
      subst he
      exact mul_nonneg (Nat.cast_nonneg _) (pow10_nonneg e)

theorem parseNum_nonneg (cs : List Char) (v : ℚ)
    (hm : ('-' : Char) ∉ cs) (h : parseNum cs = some v) : 0 ≤ v := by
  rw [parseNum.eq_def] at h
  split at h
  · exact absurd (List.mem_cons_self _ _) hm
  · exact parseUnsigned_nonneg _ _ h
  · exact parseUnsigned_nonneg _ _ h

theorem mem_rewriteCurrency (s : String) (c : Char)
    (h : c ∈ (rewriteCurrency s).data) : c ∈ s.data ∨ c ∈ ['0', 'e', '6', '9'] := by
  unfold rewriteCurrency strReplaceFirst at h
  have d0 : ("0" : String).data = ['0'] := rfl
  have de : ("" : String).data = [] := rfl
  have d6 : ("e6" : String).data = ['e', '6'] := rfl
  have d9 : ("e9" : String).data = ['e', '9'] := rfl
  rcases mem_replaceFirstL _ _ _ _ h with h | h
  · rcases mem_replaceFirstL _ _ _ _ h with h | h
    · rcases mem_replaceFirstL _ _ _ _ h with h | h
      · rcases mem_replaceFirstL _ _ _ _ h with h | h
        · exact Or.inl h
        · rw [d0] at h
          right; simp at h ⊢; tauto
      · rw [de] at h
        exact absurd h (List.not_mem_nil c)
    · rw [d6] at h
      right; simp at h ⊢; tauto
  · rw [d9] at h
    right; simp at h ⊢; tauto

theorem normCurrency_nonneg (s : String) (v : ℚ)
    (hm : ('-' : Char) ∉ s.data) (h : normCurrency s = some v) : 0 ≤ v := by
  unfold normCurrency at h
  rcases Option.map_eq_some'.mp h with ⟨w, hw, hv⟩
  subst hv
  have hnm : ('-' : Char) ∉ (rewriteCurrency s).data := by
    intro hc
    rcases mem_rewriteCurrency s _ hc with hc | hc
    · exact hm hc
    · simp at hc
  exact mul_nonneg (parseNum_nonneg _ _ hnm hw) (by norm_num)

theorem optionMapM_mem (f : α → Option β) :
    ∀ l out, optionMapM f l = some out → ∀ b ∈ out, ∃ a ∈ l, f a = some b
  | [], out, h => by
      simp only [optionMapM, Option.some.injEq] at h
      subst h; intro b hb; exact absurd hb (List.not_mem_nil b)
  | a :: l, out, h => by
      simp only [optionMapM] at h
      rcases ha : f a with _ | b0
      · rw [ha] at h; exact absurd h (by simp)
      · rw [ha] at h
        rcases hl : optionMapM f l with _ | bs
        · rw [hl] at h; exact absurd h (by simp)
        · rw [hl] at h
          simp only [Option.some.injEq] at h
          subst h
          intro b hb
          rcases List.mem_cons.mp hb with hb | hb
          · exact ⟨a, List.mem_cons_self a l, hb ▸ ha⟩
          · rcases optionMapM_mem f l bs hl b hb with ⟨a2, ha2, hfa2⟩
            exact ⟨a2, List.mem_cons_of_mem a ha2, hfa2⟩

theorem optionMapM_mem_src (f : α → Option β) :
    ∀ l out, optionMapM f l = some out → ∀ a ∈ l, ∃ b ∈ out, f a = some b
  | [], _, _, a, ha => absurd ha (List.not_mem_nil a)
  | a :: l, out, h, a2, ha2 => by
      simp only [optionMapM] at h
      rcases ha : f a with _ | b0
      · rw [ha] at h; exact absurd h (by simp)
      · rw [ha] at h
        rcases hl : optionMapM f l with _ | bs
        · rw [hl] at h; exact absurd h (by simp)
        · rw [hl] at h
          simp only [Option.some.injEq] at h
          subst h
          rcases List.mem_cons.mp ha2 with hb | hb
          · exact ⟨b0, List.mem_cons_self b0 bs, hb ▸ ha⟩
          · rcases optionMapM_mem_src f l bs hl a2 hb with ⟨b, hbmem, hfb⟩
            exact ⟨b, List.mem_cons_of_mem b0 hbmem, hfb⟩

theorem optionMapM_map (f : α → Option β) (g : β → γ) (gs : α → γ)
    (hfield : ∀ a b, f a = some b → g b = gs a) :
    ∀ l out, optionMapM f l = some out → out.map g = l.map gs
  | [], out, h => by
      simp only [optionMapM, Option.some.injEq] at h
      subst h; rfl
  | a :: l, out, h => by
      simp only [optionMapM] at h
      rcases ha : f a with _ | b0
      · rw [ha] at h; exact absurd h (by simp)
      · rw [ha] at h
        rcases hl : optionMapM f l with _ | bs
        · rw [hl] at h; exact absurd h (by simp)
        · rw [hl] at h
          simp only [Option.some.injEq] at h
          subst h
          simp only [List.map_cons, hfield a b0 ha,
            optionMapM_map f g gs hfield l bs hl]

theorem listMin_eq_none : ∀ l : List Int, listMin l = none → l = []
  | [], _ => rfl
  | z :: l, h => by
      simp only [listMin] at h
      cases hl : listMin l <;> rw [hl] at h <;> simp at h

theorem listMax_eq_none : ∀ l : List Int, listMax l = none → l = []
  | [], _ => rfl
  | z :: l, h => by
      simp only [listMax] at h
      cases hl : listMax l <;> rw [hl] at h <;> simp at h

theorem listMin_le : ∀ l : List Int, ∀ m, listMin l = some m → ∀ y ∈ l, m ≤ y
  | [], m, h, y, hy => by simp [listMin] at h
  | y0 :: l, m, h, y, hy => by
      simp only [listMin] at h
      rcases hl : listMin l with _ | m2
      · rw [hl] at h
        simp only [Option.some.injEq] at h
        subst h
        rcases List.mem_cons.mp hy with hy | hy
        · exact hy ▸ le_refl y0
        · rw [listMin_eq_none l hl] at hy
          exact absurd hy (List.not_mem_nil y)
      · rw [hl] at h
        simp only [Option.some.injEq] at h
        subst h
        rcases List.mem_cons.mp hy with hy | hy
        · exact hy ▸ min_le_left y0 m2
        · exact le_trans (min_le_right y0 m2) (listMin_le l m2 hl y hy)

theorem le_listMax : ∀ l : List Int, ∀ m, listMax l = some m → ∀ y ∈ l, y ≤ m
  | [], m, h, y, hy => by simp [listMax] at h
  | y0 :: l, m, h, y, hy => by
      simp only [listMax] at h
      rcases hl : listMax l with _ | m2
      · rw [hl] at h
        simp only [Option.some.injEq] at h
        subst h
        rcases List.mem_cons.mp hy with hy | hy
        · exact hy ▸ le_refl y0
        · rw [listMax_eq_none l hl] at hy
          exact absurd hy (List.not_mem_nil y)
      · rw [hl] at h
        simp only [Option.some.injEq] at h
        subst h
        rcases List.mem_cons.mp hy with hy | hy
        · exact hy ▸ le_max_left y0 m2
        · exact le_trans (le_listMax l m2 hl y hy) (le_max_right y0 m2)

theorem extract4_eq_find : ∀ cs : List Char,
    extract4 cs =
      ((List.range cs.length).find? (fun i => fourDigitsHere (cs.drop i))).map
        (fun i => digitsVal ((cs.drop i).take 4))
  | [] => by simp [extract4]
  | c :: cs => by
      by_cases hf : fourDigitsHere (c :: cs)
      · rw [extract4, if_pos hf, List.length_cons, List.range_succ_eq_map,
          List.find?_cons_of_pos]
        · simp
        · simpa using hf
      · rw [extract4, if_neg hf, List.length_cons, List.range_succ_eq_map,
          List.find?_cons_of_neg, List.find?_map, extract4_eq_find cs]
        · simp [Function.comp_def, Option.map_map]
        · simpa using hf

theorem transformRow_fields (r : Row) (p : PRow) (h : transformRow r = some p) :
    p.company = r.company ∧ p.country = r.country ∧ p.vertical = r.vertical ∧
    p.status = r.status ∧ p.unicorn_month = r.unicorn_month ∧
    p.unicorn_year = extractYear r.unicorn_month ∧
    normCurrency r.raised_usd = some p.raised_usd ∧
    normCurrency r.valuation_usd = some p.valuation_usd := by
  unfold transformRow at h
  split at h
  · next rv vv hr hv =>
      simp only [Option.some.injEq] at h
      subst h
      exact ⟨rfl, rfl, rfl, rfl, rfl, rfl, hr, hv⟩
  · exact absurd h (by simp)

/-!  Claim theorems. -/

/-- C1: the spec's stated policy is that a row whose `raised_usd` or
`valuation_usd` text matches no normalization rule is treated as zero and the
load completes.  The code instead performs a strict `Float64` cast: the
malformed text "abc" fails the cast and the whole dataset preparation aborts
(`ComputeError`, modelled as `none`), so no Prepared Table is produced at
all. -/
theorem claim1_malformed_aborts_load :
    normCurrency "abc" = none ∧ prepare_dataset [malformedRow] = none :=
  ⟨by with_unfolding_all rfl, by with_unfolding_all rfl⟩

/-- C8: for the two France rows with raised texts "$500M" and "$1.5B", the
derived `raised_usd` values are 0.5 and 1.5 (billions of USD) and the sum
aggregation over the group country = "France" is exactly 2. -/
theorem claim8_france_sum :
    (prepare_dataset [franceRow1, franceRow2]).map
        (fun out => (out.map (fun r => r.raised_usd),
                     aggValue "sum" "raised_usd" "country" "France" out))
      = some ([1/2, 3/2], 2) := by
  with_unfolding_all rfl

/-- C4, counterexample: the claim says applying the normalization rule to an
already-numeric text yields the same value unchanged; on the text "2" the
full rule (which ends in the multiplication by 1/10^9) yields 1/500000000,
not 2. -/
theorem claim4_counterexample :
    normCurrency "2" = some (1 / 500000000) ∧ (1 / 500000000 : ℚ) ≠ 2 :=
  ⟨by with_unfolding_all rfl, by norm_num⟩

/-- C4, amended: on a text containing no "$", "M", "B" and "N/A", the
textual substitution chain of the rule is the identity (hence idempotent),
so the parsed number is the value the text itself denotes; the full rule
then scales that value by 1/10^9. -/
theorem claim4_rewrite_identity (s : String)
    (h1 : strOccurs "$".data s.data = false)
    (h2 : strOccurs "M".data s.data = false)
    (h3 : strOccurs "B".data s.data = false)
    (h4 : strOccurs "N/A".data s.data = false) :
    rewriteCurrency s = s ∧
    normCurrency s = (parseNum s.data).map (fun v => v * (1 / 1000000000)) := by
  have e4 := replaceFirstL_of_not_occurs "N/A".data "0".data s.data h4
  have e1 := replaceFirstL_of_not_occurs "$".data "".data s.data h1
  have e2 := replaceFirstL_of_not_occurs "M".data "e6".data s.data h2
  have e3 := replaceFirstL_of_not_occurs "B".data "e9".data s.data h3
  have hrw : rewriteCurrency s = s := by
    show (⟨replaceFirstL "B".data "e9".data
      (replaceFirstL "M".data "e6".data
        (replaceFirstL "$".data "".data
          (replaceFirstL "N/A".data "0".data s.data)))⟩ : String) = s
    rw [e4, e1, e2, e3]
  refine ⟨hrw, ?_⟩
  unfold normCurrency
  rw [hrw]

/-- C4, witness: the text "12.5" contains none of the markers; the rewrite
chain leaves it unchanged and the full rule returns its parsed value scaled
by 1/10^9. -/
theorem claim4_rewrite_identity_witness :
    rewriteCurrency "12.5" = "12.5" ∧
    normCurrency "12.5" =
      (parseNum "12.5".data).map (fun v => v * (1 / 1000000000)) :=
  claim4_rewrite_identity "12.5" (by decide) (by decide) (by decide) (by decide)

/-- C3, counterexample: on a prepared table holding a null-year row, the
filters with both sentinels "All" and the full year range [min, max] drop
the null-year row, so the result does not equal the full table (the claim
says it is returned unchanged in row count and content). -/
theorem claim3_counterexample :
    tableMinYear [yearRow, noYearRow] = some 2015 ∧
    tableMaxYear [yearRow, noYearRow] = some 2015 ∧
    applyFilters [yearRow, noYearRow] "All" "All" 2015 2015 = [yearRow] ∧
    ([yearRow] : List PRow).length ≠ [yearRow, noYearRow].length :=
  ⟨by with_unfolding_all rfl, by with_unfolding_all rfl,
   by with_unfolding_all rfl, by decide⟩

/-- C3, amended: when every row of the prepared table has a non-null
`unicorn_year`, applying the filters with country "All", industry "All" and
the table's own [min, max] year range returns the table unchanged. -/
theorem claim3_full_range_identity (t : List PRow) (lo hi : Int)
    (hmin : tableMinYear t = some lo) (hmax : tableMaxYear t = some hi)
    (hy : ∀ r ∈ t, r.unicorn_year.isSome) :
    applyFilters t "All" "All" lo hi = t := by
  have hall : ∀ r ∈ t, (match r.unicorn_year with
      | some y => decide (lo ≤ y) && decide (y ≤ hi)
      | none => false) = true := by
    intro r hr
    rcases hys : r.unicorn_year with _ | y
    · have := hy r hr
      rw [hys] at this
      simp at this
    · have hmem : y ∈ t.filterMap (fun r => r.unicorn_year) :=
        List.mem_filterMap.mpr ⟨r, hr, hys⟩
      simp [listMin_le _ _ hmin y hmem, le_listMax _ _ hmax y hmem]
  unfold applyFilters
  simp only [beq_self_eq_true, if_true, bne_self_eq_false, Bool.false_eq_true,
    if_false, if_true]
  exact List.filter_eq_self.mpr hall

/-- C3, witness: a one-row table with year 2015 passes through the full
"All"/"All"/[2015, 2015] filter unchanged. -/
theorem claim3_full_range_identity_witness :
    applyFilters [yearRow] "All" "All" 2015 2015 = [yearRow] :=
  claim3_full_range_identity [yearRow] 2015 2015 (by with_unfolding_all rfl)
    (by with_unfolding_all rfl) (by decide)

/-- C5, counterexample: a "United Kingdom" row is renamed to "UK" in the
Prepared Table, and "UK" is not a member of the fixed 27-entry allow-list,
so the claimed invariant (every prepared country is in the allow-list)
fails on this row. -/
theorem claim5_counterexample :
    prepare_dataset [ukRow] = some [ukPrepared] ∧
    ukPrepared.country = "UK" ∧ "UK" ∉ european_countries :=
  ⟨by with_unfolding_all rfl, rfl, by decide⟩

/-- C5, amended: every row of the Prepared Table has a country in the
allow-list with "United Kingdom" replaced by "UK" (the image of the 27-entry
list under the rename), and a status that is exactly "Active" or "Exited";
rows with any other country or status were dropped by the two filters. -/
theorem claim5_invariant (rows : List Row) (out : List PRow)
    (h : prepare_dataset rows = some out) :
    ∀ p ∈ out,
      p.country ∈ european_countries.map (strReplaceFirst "United Kingdom" "UK") ∧
      (p.status = "Active" ∨ p.status = "Exited") := by
  intro p hp
  unfold prepare_dataset at h
  rcases optionMapM_mem _ _ _ h p hp with ⟨s, hs, hts⟩
  obtain ⟨-, hcountry, -, hstatus, -, -, -, -⟩ := transformRow_fields s p hts
  rcases List.mem_filter.mp hs with ⟨hs2, hstat⟩
  rcases List.mem_map.mp hs2 with ⟨u, hu, hru⟩
  rcases List.mem_filter.mp hu with ⟨hurows, hcnt⟩
  constructor
  · rw [hcountry, ← hru]
    have : (renameUK u).country = strReplaceFirst "United Kingdom" "UK" u.country := rfl
    rw [this]
    exact List.mem_map_of_mem _ (List.elem_iff.mp hcnt)
  · rw [hstatus]
    have hst : s.status ∈ ["Active", "Exited"] := List.elem_iff.mp hstat
    simpa using hst

/-- C5, witness: instantiating the invariant on the prepared UK row. -/
theorem claim5_invariant_witness :
    ukPrepared.country ∈
      european_countries.map (strReplaceFirst "United Kingdom" "UK") ∧
    (ukPrepared.status = "Active" ∨ ukPrepared.status = "Exited") :=
  claim5_invariant [ukRow] [ukPrepared] (by with_unfolding_all rfl)
    ukPrepared (by simp)

/-- C6, counterexample: nothing in the pipeline forbids a negative amount;
the input text "-5M" survives preparation with derived `raised_usd`
-1/200 < 0, refuting the universal invariant raised_usd ≥ 0. -/
theorem claim6_counterexample :
    prepare_dataset [negRow] = some [negPrepared] ∧
    ¬ (0 ≤ negPrepared.raised_usd) :=
  ⟨by with_unfolding_all rfl, by norm_num [negPrepared]⟩

/-- C6, amended: for every input whose raised and valuation texts contain no
minus sign, every row of the Prepared Table has `raised_usd` ≥ 0 and
`valuation_usd` ≥ 0 (the rewrite chain introduces no sign, and a sign-free
text parses to a nonnegative number). -/
theorem claim6_nonneg (rows : List Row) (out : List PRow)
    (hminus : ∀ r ∈ rows,
      ('-' : Char) ∉ r.raised_usd.data ∧ ('-' : Char) ∉ r.valuation_usd.data)
    (h : prepare_dataset rows = some out) :
    ∀ p ∈ out, 0 ≤ p.raised_usd ∧ 0 ≤ p.valuation_usd := by
  intro p hp
  unfold prepare_dataset at h
  rcases optionMapM_mem _ _ _ h p hp with ⟨s, hs, hts⟩
  obtain ⟨-, -, -, -, -, -, hraised, hval⟩ := transformRow_fields s p hts
  rcases List.mem_filter.mp hs with ⟨hs2, -⟩
  rcases List.mem_map.mp hs2 with ⟨u, hu, hru⟩
  rcases List.mem_filter.mp hu with ⟨hurows, -⟩
  have hm := hminus u hurows
  subst hru
  exact ⟨normCurrency_nonneg _ _ hm.1 hraised,
         normCurrency_nonneg _ _ hm.2 hval⟩

/-- C6, witness: instantiating nonnegativity on a prepared clean row. -/
theorem claim6_nonneg_witness :
    0 ≤ cleanPrepared.raised_usd ∧ 0 ≤ cleanPrepared.valuation_usd :=
  claim6_nonneg [cleanRow] [cleanPrepared] (by decide)
    (by with_unfolding_all rfl) cleanPrepared (by simp)

/-- C9: in every successfully prepared table, "United Kingdom" never appears
as a country value, and "UK" appears whenever some input row has country
"United Kingdom" and a status passing the Active/Exited filter. -/
theorem claim9_uk_rename (rows : List Row) (out : List PRow)
    (h : prepare_dataset rows = some out) :
    (∀ p ∈ out, p.country ≠ "United Kingdom") ∧
    ((∃ r ∈ rows, r.country = "United Kingdom" ∧
        (r.status = "Active" ∨ r.status = "Exited")) →
      ∃ p ∈ out, p.country = "UK") := by
  constructor
  · intro p hp
    unfold prepare_dataset at h
    rcases optionMapM_mem _ _ _ h p hp with ⟨s, hs, hts⟩
    obtain ⟨-, hcountry, -, -, -, -, -, -⟩ := transformRow_fields s p hts
    rcases List.mem_filter.mp hs with ⟨hs2, -⟩
    rcases List.mem_map.mp hs2 with ⟨u, hu, hru⟩
    rcases List.mem_filter.mp hu with ⟨-, hcnt⟩
    have hukey : ∀ c ∈ european_countries,
        strReplaceFirst "United Kingdom" "UK" c ≠ "United Kingdom" := by decide
    rw [hcountry, ← hru]
    have : (renameUK u).country = strReplaceFirst "United Kingdom" "UK" u.country := rfl
    rw [this]
    exact hukey u.country (List.elem_iff.mp hcnt)
  · rintro ⟨r, hr, hcountry, hstatus⟩
    have h1 : r ∈ rows.filter (fun r => european_countries.contains r.country) := by
      refine List.mem_filter.mpr ⟨hr, ?_⟩
      rw [hcountry]; decide
    have h2 : renameUK r ∈
        (rows.filter (fun r => european_countries.contains r.country)).map renameUK :=
      List.mem_map_of_mem _ h1
    have h3 : renameUK r ∈
        ((rows.filter (fun r => european_countries.contains r.country)).map
          renameUK).filter (fun r => ["Active", "Exited"].contains r.status) := by
      refine List.mem_filter.mpr ⟨h2, ?_⟩
      have hst : (renameUK r).status = r.status := rfl
      rw [hst]
      rcases hstatus with hs | hs <;> rw [hs] <;> decide
    unfold prepare_dataset at h
    rcases optionMapM_mem_src _ _ _ h _ h3 with ⟨p, hpmem, hpt⟩
    obtain ⟨-, hpcountry, -, -, -, -, -, -⟩ := transformRow_fields _ _ hpt
    refine ⟨p, hpmem, ?_⟩
    rw [hpcountry]
    have : (renameUK r).country = strReplaceFirst "United Kingdom" "UK" r.country := rfl
    rw [this, hcountry]
    decide

/-- C9, witness: on the one-row UK input the prepared table has no
"United Kingdom" country and does contain "UK". -/
theorem claim9_uk_rename_witness :
    (∀ p ∈ [ukPrepared9], p.country ≠ "United Kingdom") ∧
    ((∃ r ∈ [ukRow9], r.country = "United Kingdom" ∧
        (r.status = "Active" ∨ r.status = "Exited")) →
      ∃ p ∈ [ukPrepared9], p.country = "UK") :=
  claim9_uk_rename [ukRow9] [ukPrepared9] (by with_unfolding_all rfl)

/-- C10: preparation and filtering preserve relative row order.  The
projection of the Prepared Table to the columns preparation never edits
(company, vertical, unicorn_month) is a sublist (order-preserving
subsequence) of the same projection of the source rows, and every filtered
view is a sublist of the table it filters. -/
theorem claim10_order_preserved :
    (∀ rows out, prepare_dataset rows = some out →
      List.Sublist (out.map outKey) (rows.map srcKey)) ∧
    (∀ (t : List PRow) loc ind lo hi,
      List.Sublist (applyFilters t loc ind lo hi) t) := by
  constructor
  · intro rows out h
    unfold prepare_dataset at h
    have hmap := optionMapM_map transformRow outKey srcKey
      (fun a b hb => by
        obtain ⟨h1, -, h3, -, h5, -, -, -⟩ := transformRow_fields a b hb
        unfold outKey srcKey
        rw [h1, h3, h5]) _ _ h
    rw [hmap, List.filter_map]
    have hcomp : srcKey ∘ renameUK = srcKey := by
      funext u; rfl
    rw [List.map_map, hcomp]
    exact ((List.filter_sublist _).trans (List.filter_sublist _)).map srcKey
  · intro t loc ind lo hi
    unfold applyFilters
    have s1 : List.Sublist
        (if loc == "All" then t else t.filter (fun r => r.country == loc)) t := by
      split
      · exact List.Sublist.refl _
      · exact List.filter_sublist _
    have s2 : List.Sublist
        (if ind != "All"
          then (if loc == "All" then t
                else t.filter (fun r => r.country == loc)).filter
            (fun r => r.vertical == ind)
          else (if loc == "All" then t
                else t.filter (fun r => r.country == loc)))
        (if loc == "All" then t else t.filter (fun r => r.country == loc)) := by
      split
      · exact List.filter_sublist _
      · exact List.Sublist.refl _
    exact (List.filter_sublist _).trans (s2.trans s1)

/-- C10, witness: instantiating order preservation on a one-row input and on
a concrete filter application. -/
theorem claim10_order_preserved_witness :
    List.Sublist ([cleanPrepared].map outKey) ([cleanRow].map srcKey) ∧
    List.Sublist (applyFilters [cleanPrepared] "All" "All" 2020 2020)
      [cleanPrepared] :=
  ⟨claim10_order_preserved.1 [cleanRow] [cleanPrepared] (by with_unfolding_all rfl),
   claim10_order_preserved.2 [cleanPrepared] "All" "All" 2020 2020⟩

/-- C2, counterexample: with the `sum` aggregation the claim says groups are
ordered by the aggregated value descending; on `tSum` the chart order driven
by the hard-coded `op="count"` sort is [B, A], although sum(B) = 2 is less
than sum(A) = 10, so the claimed order is violated. -/
theorem claim2_counterexample :
    chartGroupOrder (bar_chart "country" "valuation_usd" "sum" "Valuation" true)
        tSum = ["B", "A"] ∧
    aggValue "sum" "valuation_usd" "country" "B" tSum = 2 ∧
    aggValue "sum" "valuation_usd" "country" "A" tSum = 10 ∧
    ¬ ((10 : ℚ) ≤ 2) :=
  ⟨by with_unfolding_all rfl, by with_unfolding_all rfl,
   by with_unfolding_all rfl, by norm_num⟩

/-- C2, amended: `bar_chart` always sorts the groups by the per-group row
COUNT in descending order — the sort op is the literal "count" whatever the
aggregation function is — stably, preserving first-seen order among count
ties; when the aggregation is `count` this coincides with ordering by the
aggregated value (witnessed on the spec's {A: 3, B: 5, C: 5} example, which
yields [B, C, A]). -/
theorem claim2_sort_by_count :
    (∀ y x func title lbl, (bar_chart y x func title lbl).sortOp = "count" ∧
      (bar_chart y x func title lbl).sortOrder = "descending") ∧
    (∀ y x f1 f2 title lbl t, chartGroupOrder (bar_chart y x f1 title lbl) t =
      chartGroupOrder (bar_chart y x f2 title lbl) t) ∧
    (∀ (spec : ChartSpec) (t : List PRow), List.Perm (chartGroupOrder spec t)
      (distinctFirstSeen (t.map (colStr spec.groupBy)))) ∧
    (∀ (spec : ChartSpec) (t : List PRow), List.Sorted
      (fun a b => aggValue spec.sortOp spec.measure spec.groupBy b t ≤
                  aggValue spec.sortOp spec.measure spec.groupBy a t)
      (chartGroupOrder spec t)) ∧
    chartGroupOrder (bar_chart "country" "company" "count" "Unicorns" true)
      tTie = ["B", "C", "A"] := by
  refine ⟨fun y x func title lbl => ⟨rfl, rfl⟩, fun y x f1 f2 title lbl t => rfl,
    fun spec t => List.perm_insertionSort _ _, fun spec t => ?_,
    by with_unfolding_all rfl⟩
  haveI : IsTotal String (fun a b =>
      aggValue spec.sortOp spec.measure spec.groupBy b t ≤
        aggValue spec.sortOp spec.measure spec.groupBy a t) :=
    ⟨fun a b => le_total _ _⟩
  haveI : IsTrans String (fun a b =>
      aggValue spec.sortOp spec.measure spec.groupBy b t ≤
        aggValue spec.sortOp spec.measure spec.groupBy a t) :=
    ⟨fun a b c hab hbc => le_trans hbc hab⟩
  exact List.sorted_insertionSort _ _

/-- C7: `unicorn_year` is the integer value of the leftmost four consecutive
digits of the `unicorn_month` text ("March 2015" yields 2015); when no four
consecutive digits exist ("Unknown") the year is null, and every row of a
year-bounded filtered view has a non-null year (null never satisfies the
interval test). -/
theorem claim7_year_extraction :
    (∀ s : String, extractYear s =
      (((List.range s.data.length).find? (fun i => fourDigitsHere (s.data.drop i))).map
        (fun i => (digitsVal ((s.data.drop i).take 4) : Int)))) ∧
    extractYear "March 2015" = some 2015 ∧
    extractYear "Unknown" = none ∧
    (∀ (t : List PRow) loc ind lo hi,
      (applyFilters t loc ind lo hi).all (fun r => r.unicorn_year.isSome) = true) := by
  refine ⟨?_, by rfl, by rfl, ?_⟩
  · intro s
    unfold extractYear
    rw [extract4_eq_find]
    rcases (List.range s.data.length).find? (fun i => fourDigitsHere (s.data.drop i))
      with _ | i <;> rfl
  · intro t loc ind lo hi
    rw [List.all_eq_true]
    intro r hr
    unfold applyFilters at hr
    have hpred := (List.mem_filter.mp hr).2
    rcases hys : r.unicorn_year with _ | y
    · rw [hys] at hpred
      simp at hpred
    · simp [hys]
